import Mathlib

/-!
Shallow embedding of `helpers.py` from the `aps-directional` repository.

Images are 2-D grids of rational-valued intensities (the Python code works in
float64; we model the arithmetic exactly over `ℚ`).  A stack is an `N × H × W`
array.  External library routines (`skimage.filters.median`,
`skimage.util.img_as_float`, `skimage.registration.phase_cross_correlation`,
`skimage.exposure.equalize_adapthist`) are taken as function parameters: the
embedding is faithful to how `helpers.py` composes them, while their internal
numerics stay abstract.  NumPy primitives that the claims depend on
(slicing with clamping, `np.clip`, `np.percentile` with linear interpolation,
`np.arange`, `np.stack`) are modelled concretely, as is Python's `round`
(banker's rounding) and the path/string handling of the save routines.
-/

/-- A 2-D image: height, width, and a total pixel function.  Pixels outside
`[0,H) × [0,W)` are junk values that no operation observes. -/
structure Img where
  H : Nat
  W : Nat
  px : Nat → Nat → ℚ

/-- An image stack of shape `(N, H, W)` (NumPy axis order). -/
structure Stack where
  N : Nat
  H : Nat
  W : Nat
  px : Nat → Nat → Nat → ℚ

/-- Frame `i` of a stack, i.e. `imgs[i, :, :]`. -/
def Stack.frame (s : Stack) (i : Nat) : Img :=
  ⟨s.H, s.W, s.px i⟩

/-- Resolve a Python slice endpoint against an axis of length `len`:
non-negative endpoints clamp to `len`; negative endpoints count from the end
and clamp to `0`.  (Python `a[i:j]` semantics for each endpoint.) -/
def pyIdx (len : Nat) (i : ℤ) : Nat :=
  if 0 ≤ i then min i.toNat len else len - min (-i).toNat len

/-- NumPy 2-D slice `img[r0:r1, c0:c1]` with Python endpoint semantics. -/
def Img.pySlice (img : Img) (r0 r1 c0 c1 : ℤ) : Img :=
  let a := pyIdx img.H r0
  let b := pyIdx img.H r1
  let c := pyIdx img.W c0
  let d := pyIdx img.W c1
  ⟨b - a, d - c, fun r c' => img.px (a + r) (c + c')⟩

/-- NumPy elementwise subtraction of two 2-D arrays.  `none` models the
broadcast error raised on mismatched shapes (broadcasting against a singleton
axis is not modelled; the claims never exercise it). -/
def Img.subImg (x y : Img) : Option Img :=
  if x.H = y.H ∧ x.W = y.W then
    some ⟨x.H, x.W, fun r c => x.px r c - y.px r c⟩
  else none

/-! ### The alignment engine, `align_and_sub_liq` (helpers.py lines 10-56)

The crop of the reference frame (lines 34-37) and of frame `i` (lines 38-43)
are named so that theorems can speak about the crop arithmetic directly.
`mr`, `mc` are `abs(max_offset_r)`, `abs(max_offset_c)`; `ri`, `ci` are
`abs(offset_r)`, `abs(offset_c)` for the current frame. -/

/-- `imgs_float[0, : H - mr, : W - mc]` (helpers.py lines 34-37). -/
def liqCrop (img0 : Img) (mr mc : Nat) : Img :=
  img0.pySlice 0 ((img0.H : ℤ) - (mr : ℤ)) 0 ((img0.W : ℤ) - (mc : ℤ))

/-- `imgs_float[i, ri : origH - (mr - ri), ci : origW - (mc - ci)]`
(helpers.py lines 38-43); the stop bounds use the *original* stack's shape
(`imgs.shape`), as in the source. -/
def frameCrop (imgI : Img) (origH origW mr mc ri ci : Nat) : Img :=
  imgI.pySlice (ri : ℤ) ((origH : ℤ) - ((mr : ℤ) - (ri : ℤ)))
    (ci : ℤ) ((origW : ℤ) - ((mc : ℤ) - (ci : ℤ)))

/-- One iteration of the alignment loop (helpers.py lines 29-44): crop frame
`i` and the reference frame, subtract, and check the result fits the
pre-allocated `(outH, outW)` slot (`imgs_crctd[i, :, :] = ...`); `none`
models the NumPy shape error otherwise. -/
def alignFrame (imgsFloat : Stack) (origH origW mr mc outH outW : Nat)
    (pcc : Img → Img → ℤ × ℤ) (i : Nat) : Option Img :=
  let off := pcc (imgsFloat.frame 0) (imgsFloat.frame i)
  let ri := off.1.natAbs
  let ci := off.2.natAbs
  let imgLiq := liqCrop (imgsFloat.frame 0) mr mc
  let imgI := frameCrop (imgsFloat.frame i) origH origW mr mc ri ci
  (imgI.subImg imgLiq).bind fun d =>
    if d.H = outH ∧ d.W = outW then some d else none

/-- Run `f` on `0, 1, …, n-1`, collecting the results; `none` as soon as one
iteration fails (the loop of helpers.py lines 29-44). -/
def collectFrames (f : Nat → Option Img) : Nat → Option (List Img)
  | 0 => some []
  | n + 1 => (collectFrames f n).bind fun l => (f n).map fun im => l ++ [im]

/-- The background-subtracted, drift-corrected stack `imgs_crctd` as it
stands after the loop of helpers.py lines 22-44, before clipping and
equalization.  `median` and `imgAsFloat` model `filters.median` and
`util.img_as_float`; `pcc` models `registration.phase_cross_correlation`
composed with `int(...)` truncation of each component. -/
def correctedStack (median imgAsFloat : Stack → Stack)
    (pcc : Img → Img → ℤ × ℤ) (imgs : Stack) : Option Stack :=
  let imgsFloat := imgAsFloat (median imgs)
  let maxOff := pcc (imgsFloat.frame 0) (imgsFloat.frame (imgsFloat.N - 1))
  let mr := maxOff.1.natAbs
  let mc := maxOff.2.natAbs
  let outH := imgsFloat.H - mr
  let outW := imgsFloat.W - mc
  (collectFrames (alignFrame imgsFloat imgs.H imgs.W mr mc outH outW pcc)
      imgsFloat.N).map fun frames =>
    ⟨imgsFloat.N, outH, outW, fun i r c => (frames.getD i ⟨0, 0, fun _ _ => 0⟩).px r c⟩

/-- `np.clip(s, lo, hi)` — elementwise `min (max x lo) hi`. -/
def npClip (s : Stack) (lo hi : ℚ) : Stack :=
  ⟨s.N, s.H, s.W, fun i r c => min (max (s.px i r c) lo) hi⟩

/-- All values of a stack, flattened in C order (as `np.percentile` and
`rescale_intensity` see them). -/
def Stack.vals (s : Stack) : List ℚ :=
  (List.range s.N).flatMap fun i =>
    (List.range s.H).flatMap fun r =>
      (List.range s.W).map fun c => s.px i r c

/-- Clamped indexing into a sorted value list: `v[min k (m-1)]`. -/
def valAt (v : List ℚ) (k : Nat) : ℚ :=
  v.getD (min k (v.length - 1)) 0

/-- Linear-interpolation percentile over an ascending list, NumPy's default
method: position `q/100 * (m-1)`, interpolate between the two neighbouring
order statistics. -/
def interpPctl (v : List ℚ) (q : ℚ) : ℚ :=
  let pos : ℚ := q / 100 * ((v.length : ℚ) - 1)
  let i : ℤ := pos.num / pos.den
  let lo := valAt v i.toNat
  let hi := valAt v (i.toNat + 1)
  lo + (pos - (i : ℚ)) * (hi - lo)

/-- `np.percentile(s, q)` over the whole stack (linear interpolation). -/
def percentileQ (s : Stack) (q : ℚ) : ℚ :=
  interpPctl (List.insertionSort (· ≤ ·) s.vals) q

/-- `exposure.rescale_intensity(s, in_range='image', out_range=(0, 1))`:
affinely map `[min, max]` onto `[0, 1]`; if the stack is constant the values
are left at the (clipped) minimum, as in skimage. -/
def rescale01 (s : Stack) : Stack :=
  let v := s.vals
  let lo := v.foldr min (v.headI)
  let hi := v.foldr max (v.headI)
  ⟨s.N, s.H, s.W, fun i r c =>
    if lo = hi then min (max (s.px i r c) lo) hi
    else (s.px i r c - lo) / (hi - lo)⟩

/-- `align_and_sub_liq(imgs, clip, hist_eq_clip_lim)` (helpers.py lines
10-56).  `equalize` models `exposure.equalize_adapthist` applied with the
given clip limit.  `clip = none` models `clip=None`; Python's
`if hist_eq_clip_lim:` truthiness test is `histEqClipLim ≠ 0`. -/
def alignAndSubLiq (median imgAsFloat : Stack → Stack)
    (pcc : Img → Img → ℤ × ℤ) (equalize : ℚ → Stack → Stack)
    (imgs : Stack) (clip : Option (ℚ × ℚ)) (histEqClipLim : ℚ) :
    Option Stack :=
  (correctedStack median imgAsFloat pcc imgs).map fun crctd =>
    let clipped :=
      match clip with
      | some (pLo, pHi) => npClip crctd (percentileQ crctd pLo) (percentileQ crctd pHi)
      | none => crctd
    if histEqClipLim ≠ 0 then equalize histEqClipLim (rescale01 clipped)
    else clipped

/-- The default `clip=[0.1, 99.9]` of `align_and_sub_liq`. -/
def clipDefault : ℚ × ℚ := (1/10, 999/10)

/-- The default `hist_eq_clip_lim=0.0001` of `align_and_sub_liq`. -/
def histEqClipLimDefault : ℚ := 1/10000

/-- A stack transformation that keeps `(N, H, W)` unchanged (as
`filters.median`, `img_as_float` and `equalize_adapthist` do). -/
def PreservesShape (f : Stack → Stack) : Prop :=
  ∀ s : Stack, (f s).N = s.N ∧ (f s).H = s.H ∧ (f s).W = s.W

/-! ### Errors raised by the I/O helpers -/

/-- The exceptions the helpers can raise, tagged with the offending path
where the Python message interpolates one. -/
inductive Err where
  /-- `ValueError(f'Directory does not exist: {path}')` in `get_imgs`. -/
  | notFound (path : String)
  /-- `ValueError(f'... already exists: {path}')` in the save helpers. -/
  | alreadyExists (path : String)
  /-- `FileExistsError` from `mkdir` when a plain file occupies the path. -/
  | fileExistsOS (path : String)
  /-- `ZeroDivisionError` from `round((img_stop - img_start) / 0)`. -/
  | zeroDivision
  /-- the error `np.arange` raises when its step is zero. -/
  | zeroStep
  /-- `IndexError` from `img_paths[n]` or `img_suffix[0]`. -/
  | indexError
  /-- `ValueError` from `np.stack` on an empty or ragged frame list. -/
  | stackError
  /-- `ValueError` from `util.img_as_ubyte` on out-of-range floats. -/
  | encodeError
  deriving DecidableEq

/-! ### The image store, `get_imgs` (helpers.py lines 58-121) -/

/-- `s.endswith(suf)` via the underlying character lists. -/
def strEndsWith (s suf : String) : Bool :=
  List.isSuffixOf suf.data s.data

/-- Lexicographic order on character lists, the order `sorted` puts the
globbed file names in. -/
def charListLe : List Char → List Char → Bool
  | [], _ => true
  | _ :: _, [] => false
  | a :: as, b :: bs => if a < b then true else if b < a then false else charListLe as bs

/-- Stable insertion into an ascending list of strings. -/
def insertStr (x : String) : List String → List String
  | [] => [x]
  | y :: ys => if charListLe x.data y.data then x :: y :: ys else y :: insertStr x ys

/-- `img_paths.sort()`: stable ascending sort (within one directory, path
order is the lexicographic order of the file names). -/
def sortStrings : List String → List String
  | [] => []
  | x :: xs => insertStr x (sortStrings xs)

/-- Length of `np.arange(start, stop, step)` for integer arguments and a
nonzero step: `max 0 ⌈(stop - start) / step⌉`. -/
def arangeLen (start stop step : ℤ) : Nat :=
  if 0 < step then
    if stop ≤ start then 0
    else ((stop - start).toNat + (step.toNat - 1)) / step.toNat
  else if step < 0 then
    if start ≤ stop then 0
    else ((start - stop).toNat + ((-step).toNat - 1)) / (-step).toNat
  else 0

/-- `np.arange(start, stop, step)` over the integers; `none` models the
error NumPy raises on a zero step. -/
def arange (start stop step : ℤ) : Option (List ℤ) :=
  if step = 0 then none
  else some ((List.range (arangeLen start stop step)).map fun k : Nat => start + (k : ℤ) * step)

/-- Python 3 `round(a / b)` for integers `a`, `b ≠ 0`: round-half-to-even
(banker's rounding) of the exact quotient.  `/` and `%` below are Euclidean,
so `0 ≤ r < b'` after the sign normalization. -/
def pyRoundInt (a b : ℤ) : ℤ :=
  if b = 0 then 0
  else
    let a' := if b < 0 then -a else a
    let b' := if b < 0 then -b else b
    let q := a' / b'
    let r := a' % b'
    if 2 * r < b' then q
    else if b' < 2 * r then q + 1
    else if q % 2 = 0 then q else q + 1

/-- Python list indexing `l[n]`: negative indices count from the end;
`none` models `IndexError`. -/
def pyListGet {α : Type} (l : List α) (n : ℤ) : Option α :=
  if 0 ≤ n then l[n.toNat]?
  else if (-n).toNat ≤ l.length then l[l.length - (-n).toNat]? else none

/-- `[iio.imread(img_paths[n]) for n in img_nums]`: sequential loads, the
second component recording which paths were read (reads before a failing
index do happen). -/
def loadImgs (imread : String → Img) (paths : List String) :
    List ℤ → Except Err (List Img) × List String
  | [] => (.ok [], [])
  | n :: rest =>
    match pyListGet paths n with
    | none => (.error .indexError, [])
    | some p =>
      let res := loadImgs imread paths rest
      (match res.1 with
       | .ok l => .ok (imread p :: l)
       | .error e => .error e,
       p :: res.2)

/-- `np.stack(imgs, axis=0)`: fails on an empty list or on frames of
unequal shape. -/
def npStack (frames : List Img) : Except Err Stack :=
  match frames with
  | [] => .error .stackError
  | im0 :: _ =>
    if frames.all fun im => im.H == im0.H && im.W == im0.W then
      .ok ⟨frames.length, im0.H, im0.W,
        fun i r c => (frames.getD i ⟨0, 0, fun _ _ => 0⟩).px r c⟩
    else .error .stackError

/-- The step `get_imgs` selects with (helpers.py lines 108-111): a target
count `n_imgs` takes precedence and derives `round((stop-start)/n_imgs)`;
otherwise the explicit step, defaulting to 1. -/
def chooseStep (start stop : ℤ) (imgStep nImgs : Option ℤ) : Except Err ℤ :=
  match nImgs with
  | some k => if k = 0 then .error .zeroDivision else .ok (pyRoundInt (stop - start) k)
  | none => .ok (imgStep.getD 1)

/-- Suffix normalization plus `img_dir_path.glob(f'*.{img_suffix}')` plus
`img_paths.sort()` (helpers.py lines 98-103): strip a leading `'.'` from the
filter, keep the entries ending in `'.' + suffix`, sort ascending. -/
def globSorted (entries : List String) (imgSuffix : String) : List String :=
  let sfx := if imgSuffix.data.headI = '.' then String.mk imgSuffix.data.tail
             else imgSuffix
  sortStrings (entries.filter fun nm => strEndsWith nm ("." ++ sfx))

/-- `get_imgs(img_dir_path, img_start, img_stop, img_step, n_imgs, …,
img_suffix)` (helpers.py lines 58-121).  `fs` maps an existing directory to
its entry names (`none` = not a directory); `imread` models `iio.imread`.
The second component is the trace of files actually read.  The print-only
`print_nums` parameter is omitted (it affects no observable state). -/
def getImgs (fs : String → Option (List String)) (imread : String → Img)
    (imgDirPath : String) (imgStart imgStop imgStep nImgs : Option ℤ)
    (imgSuffix : String) : Except Err Stack × List String :=
  match fs imgDirPath with
  | none => (.error (.notFound imgDirPath), [])
  | some entries =>
    if imgSuffix = "" then (.error .indexError, [])
    else
      let imgPaths := globSorted entries imgSuffix
      let start := imgStart.getD 0
      let stop := imgStop.getD imgPaths.length
      match chooseStep start stop imgStep nImgs with
      | .error e => (.error e, [])
      | .ok step =>
        match arange start stop step with
        | none => (.error .zeroStep, [])
        | some nums =>
          let res := loadImgs imread imgPaths nums
          match res.1 with
          | .error e => (.error e, res.2)
          | .ok frames => (npStack frames, res.2)

/-! ### The exporters, `save_as_gif` and `save_as_pngs`
(helpers.py lines 123-220)

The filesystem is a pair of lists of existing file and directory paths; the
exporters return the outcome together with the filesystem after the call, so
"raises before writing any output" is "the filesystem comes back unchanged".
-/

/-- Filesystem state: which paths exist as files and as directories. -/
structure FS where
  files : List String
  dirs : List String

/-- String membership via the underlying character lists. -/
def strMem (p : String) (l : List String) : Bool :=
  l.any fun q => p.data == q.data

/-- `Path(p).exists()`: a file or a directory is present at `p`. -/
def FS.pathExists (fs : FS) (p : String) : Bool :=
  strMem p fs.files || strMem p fs.dirs

/-- The destination `save_as_gif` actually uses (helpers.py lines 152-154):
append `'.gif'` unless the given path already ends with it. -/
def gifPath (savePath : String) : String :=
  if strEndsWith savePath ".gif" then savePath else savePath ++ ".gif"

/-- The range check of `util.img_as_ubyte` on a float frame: every pixel
must lie in `[-1, 1]`. -/
def ubyteRangeOk (im : Img) : Bool :=
  (List.range im.H).all fun r =>
    (List.range im.W).all fun c =>
      decide (-1 ≤ im.px r c) && decide (im.px r c ≤ 1)

/-- `save_as_gif(save_path, imgs, equalize_hist, fps)` (helpers.py lines
123-172).  `equalizeFrame` models the per-frame
`exposure.equalize_adapthist`; `fps` only parameterizes the encoder.  The
file is created by the final `iio.mimsave` once every frame converted. -/
def saveAsGif (fs : FS) (savePath : String) (imgs : Stack)
    (equalizeFrame : Img → Img) (equalizeHist : Bool) (fps : ℚ) :
    Except Err Unit × FS :=
  let p := gifPath savePath
  if fs.pathExists p then (.error (.alreadyExists p), fs)
  else
    let frames := (List.range imgs.N).map fun i =>
      let im := imgs.frame i
      if equalizeHist then equalizeFrame im else im
    if frames.all ubyteRangeOk then (.ok (), ⟨fs.files ++ [p], fs.dirs⟩)
    else (.error .encodeError, fs)

/-- `str(i).zfill(w)` for a non-negative number: left-pad with `'0'`. -/
def zfillChars (s : List Char) (w : Nat) : List Char :=
  if w ≤ s.length then s else List.replicate (w - s.length) '0' ++ s

/-- `len(str(n))` — the decimal digit count used as the padding width. -/
def numDigits (n : Nat) : Nat :=
  (Nat.toDigits 10 n).length

/-- Split a character list at every occurrence of `c`. -/
def splitOnChar (c : Char) : List Char → List (List Char)
  | [] => [[]]
  | x :: xs =>
    let r := splitOnChar c xs
    if x = c then [] :: r
    else
      match r with
      | [] => [[x]]
      | h :: t => (x :: h) :: t

/-- `Path(s).name`: the last nonempty `/`-separated component. -/
def pathFinalName (s : String) : List Char :=
  ((splitOnChar '/' s.data).filter fun comp => comp ≠ []).getLastD []

/-- `name.rfind('.')`: index of the last `'.'`, `-1` when absent. -/
def rfindDot (l : List Char) : ℤ :=
  match l.reverse.findIdx? fun x => x == '.' with
  | none => -1
  | some k => ((l.length - 1 - k : Nat) : ℤ)

/-- `Path(s).stem`: the final name, with its suffix removed when the last
`'.'` is neither leading nor trailing. -/
def pyStem (s : String) : String :=
  let n := pathFinalName s
  let i := rfindDot n
  if 0 < i ∧ i < (n.length : ℤ) - 1 then String.mk (n.take i.toNat)
  else String.mk n

/-- The name of frame `i`'s file (helpers.py line 193):
`f'{exp_name}_{str(i).zfill(n_digits)}.png'`. -/
def pngName (expName : String) (nDigits i : Nat) : String :=
  expName ++ "_" ++ String.mk (zfillChars (Nat.toDigits 10 i) nDigits) ++ ".png"

/-- `save_as_pngs(save_dir, imgs, scalebar_dict, timestamp_dict)`
(helpers.py lines 174-220).  The annotation bundles select how a frame is
rendered (plot canvas vs. raw write) but not which path it goes to, so they
are carried as presence flags.  On success the directory and one file per
frame are created. -/
def saveAsPngs (fs : FS) (saveDir : String) (imgs : Stack)
    (scalebarOn timestampOn : Bool) : Except Err Unit × FS :=
  if strMem saveDir fs.dirs then (.error (.alreadyExists saveDir), fs)
  else if strMem saveDir fs.files then (.error (.fileExistsOS saveDir), fs)
  else
    let expName := pyStem saveDir
    let nD := numDigits imgs.N
    let names := (List.range imgs.N).map fun i => saveDir ++ "/" ++ pngName expName nD i
    (.ok (), ⟨fs.files ++ names, fs.dirs ++ [saveDir]⟩)

/-! ### Crop-arithmetic lemmas shared by the alignment theorems -/

theorem pyIdx_of_le (len : Nat) (a : ℤ) (h0 : 0 ≤ a) (h1 : a ≤ (len : ℤ)) :
    pyIdx len a = a.toNat := by
  simp only [pyIdx, if_pos h0]
  omega

theorem liqCrop_shape (img : Img) (mr mc : Nat) (hH : mr ≤ img.H) (hW : mc ≤ img.W) :
    (liqCrop img mr mc).H = img.H - mr ∧ (liqCrop img mr mc).W = img.W - mc := by
  have hr := pyIdx_of_le img.H ((img.H : ℤ) - (mr : ℤ)) (by omega) (by omega)
  have hc := pyIdx_of_le img.W ((img.W : ℤ) - (mc : ℤ)) (by omega) (by omega)
  have h0H := pyIdx_of_le img.H 0 le_rfl (by omega)
  have h0W := pyIdx_of_le img.W 0 le_rfl (by omega)
  constructor <;>
    · simp only [liqCrop, Img.pySlice, hr, hc, h0H, h0W]
      omega

theorem frameCrop_shape (img : Img) (origH origW mr mc ri ci : Nat)
    (h1 : img.H = origH) (h2 : img.W = origW)
    (hr : ri ≤ mr) (hc : ci ≤ mc) (hH : mr ≤ origH) (hW : mc ≤ origW) :
    (frameCrop img origH origW mr mc ri ci).H = origH - mr ∧
    (frameCrop img origH origW mr mc ri ci).W = origW - mc := by
  have hstopr := pyIdx_of_le img.H ((origH : ℤ) - ((mr : ℤ) - (ri : ℤ)))
    (by omega) (by omega)
  have hstopc := pyIdx_of_le img.W ((origW : ℤ) - ((mc : ℤ) - (ci : ℤ)))
    (by omega) (by omega)
  have hstartr := pyIdx_of_le img.H (ri : ℤ) (by omega) (by omega)
  have hstartc := pyIdx_of_le img.W (ci : ℤ) (by omega) (by omega)
  constructor <;>
    · simp only [frameCrop, Img.pySlice, hstopr, hstopc, hstartr, hstartc]
      omega

/-- C2: in the per-frame loop, when every frame's absolute offset is bounded
by the last frame's (`ri ≤ mr`, `ci ≤ mc`, themselves within the frame), the
reference crop covers rows `[0, H-mr)` and columns `[0, W-mc)`, frame `i`'s
crop covers rows `[ri, H-(mr-ri))` and columns `[ci, W-(mc-ci))`, every index
either crop touches is inside the original frame, and both crops have
exactly the output size `(H-mr, W-mc)`; and without that precondition the
crop arithmetic can run out of bounds: a concrete frame whose own offset
exceeds the last frame's makes the slice stop bound exceed the frame height,
so the crop comes out smaller than the output slot. -/
theorem align_crop_bounds :
    (∀ (img : Img) (mr mc ri ci : Nat),
      ri ≤ mr → ci ≤ mc → mr ≤ img.H → mc ≤ img.W →
      (liqCrop img mr mc).H = img.H - mr ∧ (liqCrop img mr mc).W = img.W - mc ∧
      (frameCrop img img.H img.W mr mc ri ci).H = img.H - mr ∧
      (frameCrop img img.H img.W mr mc ri ci).W = img.W - mc ∧
      pyIdx img.H (ri : ℤ) = ri ∧
      pyIdx img.H ((img.H : ℤ) - ((mr : ℤ) - (ri : ℤ))) = img.H - (mr - ri) ∧
      pyIdx img.W (ci : ℤ) = ci ∧
      pyIdx img.W ((img.W : ℤ) - ((mc : ℤ) - (ci : ℤ))) = img.W - (mc - ci) ∧
      img.H - (mr - ri) ≤ img.H ∧ img.W - (mc - ci) ≤ img.W ∧
      (∀ r < img.H - mr, ri + r < img.H) ∧
      (∀ c < img.W - mc, ci + c < img.W)) ∧
    (∃ (H mr ri : Nat), mr < ri ∧
      (H : ℤ) < (H : ℤ) - ((mr : ℤ) - (ri : ℤ)) ∧
      (frameCrop ⟨H, H, fun _ _ => 0⟩ H H mr mr ri ri).H ≠ H - mr) := by
  constructor
  · intro img mr mc ri ci hr hc hH hW
    obtain ⟨l1, l2⟩ := liqCrop_shape img mr mc hH hW
    obtain ⟨f1, f2⟩ := frameCrop_shape img img.H img.W mr mc ri ci rfl rfl hr hc hH hW
    refine ⟨l1, l2, f1, f2, ?_, ?_, ?_, ?_, by omega, by omega, ?_, ?_⟩
    · rw [pyIdx_of_le img.H (ri : ℤ) (by omega) (by omega)]; omega
    · rw [pyIdx_of_le img.H ((img.H : ℤ) - ((mr : ℤ) - (ri : ℤ))) (by omega) (by omega)]
      omega
    · rw [pyIdx_of_le img.W (ci : ℤ) (by omega) (by omega)]; omega
    · rw [pyIdx_of_le img.W ((img.W : ℤ) - ((mc : ℤ) - (ci : ℤ))) (by omega) (by omega)]
      omega
    · intro r hrr; omega
    · intro c hcc; omega
  · exact ⟨10, 1, 2, by omega, by decide, by decide⟩

/-- Witness for `align_crop_bounds` at a concrete frame: `H = W = 6`,
last-frame offsets `(2, 1)`, current-frame offsets `(1, 0)`. -/
theorem align_crop_bounds_witness :
    (liqCrop ⟨6, 6, fun _ _ => 0⟩ 2 1).H = 4 ∧
    (frameCrop ⟨6, 6, fun _ _ => 0⟩ 6 6 2 1 1 0).H = 4 ∧
    (frameCrop ⟨6, 6, fun _ _ => 0⟩ 6 6 2 1 1 0).W = 5 := by
  have h := align_crop_bounds.1 ⟨6, 6, fun _ _ => 0⟩ 2 1 1 0
    (by decide) (by decide) (by decide) (by decide)
  exact ⟨h.1, h.2.2.1, h.2.2.2.1⟩

/-! ### Shape of the aligned stack -/

theorem alignFrame_some (imgsFloat : Stack) (origH origW mr mc outH outW : Nat)
    (pcc : Img → Img → ℤ × ℤ) (i : Nat)
    (hfH : imgsFloat.H = origH) (hfW : imgsFloat.W = origW)
    (houtH : outH = origH - mr) (houtW : outW = origW - mc)
    (hr : (pcc (imgsFloat.frame 0) (imgsFloat.frame i)).1.natAbs ≤ mr)
    (hc : (pcc (imgsFloat.frame 0) (imgsFloat.frame i)).2.natAbs ≤ mc)
    (hH : mr ≤ origH) (hW : mc ≤ origW) :
    (alignFrame imgsFloat origH origW mr mc outH outW pcc i).isSome := by
  have hliq := liqCrop_shape (imgsFloat.frame 0) mr mc
    (by simpa [Stack.frame] using hfH ▸ hH) (by simpa [Stack.frame] using hfW ▸ hW)
  have hfc := frameCrop_shape (imgsFloat.frame i) origH origW mr mc
    (pcc (imgsFloat.frame 0) (imgsFloat.frame i)).1.natAbs
    (pcc (imgsFloat.frame 0) (imgsFloat.frame i)).2.natAbs
    (by simpa [Stack.frame] using hfH) (by simpa [Stack.frame] using hfW)
    hr hc hH hW
  have hfr0H : (imgsFloat.frame 0).H = origH := by simpa [Stack.frame] using hfH
  have hfr0W : (imgsFloat.frame 0).W = origW := by simpa [Stack.frame] using hfW
  simp only [alignFrame, Img.subImg, hfc.1, hfc.2, hliq.1, hliq.2, hfr0H, hfr0W]
  simp [houtH, houtW]

theorem collectFrames_some (f : Nat → Option Img) :
    ∀ n, (∀ i, i < n → (f i).isSome) →
      ∃ l, collectFrames f n = some l ∧ l.length = n := by
  intro n
  induction n with
  | zero => exact fun _ => ⟨[], rfl, rfl⟩
  | succ n ih =>
    intro h
    obtain ⟨l, hl, hlen⟩ := ih fun i hi => h i (Nat.lt_succ_of_lt hi)
    obtain ⟨im, him⟩ := Option.isSome_iff_exists.mp (h n (Nat.lt_succ_self n))
    exact ⟨l ++ [im], by simp [collectFrames, hl, him], by simp [hlen]⟩

theorem rescale01_shape (s : Stack) :
    (rescale01 s).N = s.N ∧ (rescale01 s).H = s.H ∧ (rescale01 s).W = s.W :=
  ⟨rfl, rfl, rfl⟩

theorem correctedStack_shape (median imgAsFloat : Stack → Stack)
    (pcc : Img → Img → ℤ × ℤ) (imgs : Stack)
    (hm : PreservesShape median) (hf : PreservesShape imgAsFloat)
    (F : Stack) (hF : F = imgAsFloat (median imgs))
    (dr dc : ℤ) (hoff : pcc (F.frame 0) (F.frame (F.N - 1)) = (dr, dc))
    (hpre : ∀ i, i < imgs.N →
      (pcc (F.frame 0) (F.frame i)).1.natAbs ≤ dr.natAbs ∧
      (pcc (F.frame 0) (F.frame i)).2.natAbs ≤ dc.natAbs)
    (hH : dr.natAbs ≤ imgs.H) (hW : dc.natAbs ≤ imgs.W) :
    ∃ crctd, correctedStack median imgAsFloat pcc imgs = some crctd ∧
      crctd.N = imgs.N ∧ crctd.H = imgs.H - dr.natAbs ∧ crctd.W = imgs.W - dc.natAbs := by
  have hFN : F.N = imgs.N := by rw [hF]; rw [(hf (median imgs)).1, (hm imgs).1]
  have hFH : F.H = imgs.H := by rw [hF]; rw [(hf (median imgs)).2.1, (hm imgs).2.1]
  have hFW : F.W = imgs.W := by rw [hF]; rw [(hf (median imgs)).2.2, (hm imgs).2.2]
  obtain ⟨l, hl, hlen⟩ := collectFrames_some
    (alignFrame F imgs.H imgs.W dr.natAbs dc.natAbs (F.H - dr.natAbs) (F.W - dc.natAbs) pcc)
    F.N
    (fun i hi => alignFrame_some F imgs.H imgs.W dr.natAbs dc.natAbs
      (F.H - dr.natAbs) (F.W - dc.natAbs) pcc i hFH hFW
      (by rw [hFH]) (by rw [hFW])
      (hpre i (hFN ▸ hi)).1 (hpre i (hFN ▸ hi)).2 hH hW)
  refine ⟨⟨F.N, F.H - dr.natAbs, F.W - dc.natAbs,
      fun i r c => (l.getD i ⟨0, 0, fun _ _ => 0⟩).px r c⟩,
    ?_, hFN, by rw [hFH], by rw [hFW]⟩
  rw [correctedStack, ← hF, hoff]
  simp [hl]

/-- C1: for an input stack of shape `(N, H, W)` satisfying the loop's
implicit precondition (each frame's absolute offsets bounded by the
first-vs-last offsets `(dr, dc)`, themselves within the frame),
`align_and_sub_liq` returns a stack of shape `(N, H-|dr|, W-|dc|)`, and this
shape is the same for every clip setting (`none` or any percentile pair) and
every histogram-equalization clip limit, the library collaborators being
shape-preserving. -/
theorem align_output_shape
    (median imgAsFloat : Stack → Stack) (pcc : Img → Img → ℤ × ℤ)
    (equalize : ℚ → Stack → Stack)
    (imgs : Stack) (clip : Option (ℚ × ℚ)) (lim : ℚ)
    (hm : PreservesShape median) (hf : PreservesShape imgAsFloat)
    (he : ∀ l, PreservesShape (equalize l))
    (F : Stack) (hF : F = imgAsFloat (median imgs))
    (dr dc : ℤ) (hoff : pcc (F.frame 0) (F.frame (F.N - 1)) = (dr, dc))
    (hpre : ∀ i, i < imgs.N →
      (pcc (F.frame 0) (F.frame i)).1.natAbs ≤ dr.natAbs ∧
      (pcc (F.frame 0) (F.frame i)).2.natAbs ≤ dc.natAbs)
    (hH : dr.natAbs ≤ imgs.H) (hW : dc.natAbs ≤ imgs.W) :
    ∃ out, alignAndSubLiq median imgAsFloat pcc equalize imgs clip lim = some out ∧
      out.N = imgs.N ∧ out.H = imgs.H - dr.natAbs ∧ out.W = imgs.W - dc.natAbs := by
  obtain ⟨crctd, hc, hcN, hcH, hcW⟩ :=
    correctedStack_shape median imgAsFloat pcc imgs hm hf F hF dr dc hoff hpre hH hW
  rw [alignAndSubLiq, hc]
  set clipped :=
    match clip with
    | some (pLo, pHi) => npClip crctd (percentileQ crctd pLo) (percentileQ crctd pHi)
    | none => crctd with hclip
  have hclipN : clipped.N = crctd.N ∧ clipped.H = crctd.H ∧ clipped.W = crctd.W := by
    rw [hclip]
    match clip with
    | some (pLo, pHi) => exact ⟨rfl, rfl, rfl⟩
    | none => exact ⟨rfl, rfl, rfl⟩
  refine ⟨_, rfl, ?_⟩
  by_cases hlim : lim ≠ 0
  · simp only [Option.map_some, if_pos hlim]
    have heq := he lim (rescale01 clipped)
    have hres := rescale01_shape clipped
    refine ⟨?_, ?_, ?_⟩
    · rw [heq.1, hres.1, hclipN.1, hcN]
    · rw [heq.2.1, hres.2.1, hclipN.2.1, hcH]
    · rw [heq.2.2, hres.2.2, hclipN.2.2, hcW]
  · simp only [Option.map_some, if_neg hlim]
    exact ⟨by rw [hclipN.1, hcN], by rw [hclipN.2.1, hcH], by rw [hclipN.2.2, hcW]⟩

/-- A registration stub that reports zero drift for every pair of frames
(what `phase_cross_correlation` returns on identical frames). -/
def pccZero : Img → Img → ℤ × ℤ := fun _ _ => (0, 0)

/-- An equalizer stub that returns its input unchanged; on data already in
`[0, 1]` this satisfies the `equalize_adapthist` output-range contract. -/
def eqIdentity : ℚ → Stack → Stack := fun _ s => s

/-- Witness for `align_output_shape`: a concrete `2 × 3 × 4` stack with zero
drift comes back as a `2 × 3 × 4` stack. -/
theorem align_output_shape_witness :
    ∃ out, alignAndSubLiq id id pccZero eqIdentity ⟨2, 3, 4, fun _ _ _ => 0⟩ none 0 =
        some out ∧ out.N = 2 ∧ out.H = 3 ∧ out.W = 4 := by
  have h := align_output_shape id id pccZero eqIdentity ⟨2, 3, 4, fun _ _ _ => 0⟩ none 0
    (fun _ => ⟨rfl, rfl, rfl⟩) (fun _ => ⟨rfl, rfl, rfl⟩) (fun _ _ => ⟨rfl, rfl, rfl⟩)
    ⟨2, 3, 4, fun _ _ _ => 0⟩ rfl 0 0 rfl
    (fun _ _ => ⟨le_rfl, le_rfl⟩) (by decide) (by decide)
  simpa using h

/-! ### Lemmas about the image store -/

theorem loadImgs_of_valid (imread : String → Img) (paths : List String) :
    ∀ ns : List ℤ, (∀ n ∈ ns, (pyListGet paths n).isSome) →
      loadImgs imread paths ns =
        (.ok (ns.map fun n => imread ((pyListGet paths n).getD "")),
         ns.map fun n => (pyListGet paths n).getD "") := by
  intro ns
  induction ns with
  | nil => intro _; rfl
  | cons n rest ih =>
    intro h
    obtain ⟨p, hp⟩ := Option.isSome_iff_exists.mp (h n (List.mem_cons_self n rest))
    have hrest := ih fun m hm => h m (List.mem_cons_of_mem n hm)
    simp [loadImgs, hp, hrest]

theorem loadImgs_fst_ok_length (imread : String → Img) (paths : List String) :
    ∀ (ns : List ℤ) (frames : List Img),
      (loadImgs imread paths ns).1 = .ok frames → frames.length = ns.length := by
  intro ns
  induction ns with
  | nil =>
    intro frames h
    simp only [loadImgs] at h
    cases h
    rfl
  | cons n rest ih =>
    intro frames h
    simp only [loadImgs] at h
    cases hp : pyListGet paths n with
    | none => rw [hp] at h; cases h
    | some p =>
      rw [hp] at h
      cases hrest : (loadImgs imread paths rest).1 with
      | error e => simp [hrest] at h
      | ok l => rw [hrest] at h; cases h; simp [ih l hrest]

theorem npStack_ok (frames : List Img) (H0 W0 : Nat) (hne : frames ≠ [])
    (hsh : ∀ im ∈ frames, im.H = H0 ∧ im.W = W0) :
    ∃ st, npStack frames = .ok st ∧ st.N = frames.length ∧ st.H = H0 ∧ st.W = W0 ∧
      ∀ i r c, st.px i r c = (frames.getD i ⟨0, 0, fun _ _ => 0⟩).px r c := by
  cases frames with
  | nil => exact absurd rfl hne
  | cons im0 rest =>
    have h0 := hsh im0 (List.mem_cons_self im0 rest)
    have hall : ((im0 :: rest).all fun im => im.H == im0.H && im.W == im0.W) = true := by
      rw [List.all_eq_true]
      intro im him
      have h1 := hsh im him
      simp [h1.1, h1.2, h0.1, h0.2]
    refine ⟨⟨(im0 :: rest).length, im0.H, im0.W,
        fun i r c => ((im0 :: rest).getD i ⟨0, 0, fun _ _ => 0⟩).px r c⟩,
      by simp [npStack, hall], rfl, h0.1, h0.2, fun i r c => rfl⟩

theorem npStack_fst_N (frames : List Img) (st : Stack)
    (h : npStack frames = .ok st) : st.N = frames.length := by
  cases frames with
  | nil => cases h
  | cons im0 rest =>
    simp only [npStack] at h
    by_cases hall : ((im0 :: rest).all fun im => im.H == im0.H && im.W == im0.W) = true
    · rw [if_pos hall] at h
      cases h
      rfl
    · rw [if_neg hall] at h
      cases h

/-- C5: a path that is not an existing directory makes `get_imgs` fail with
the not-found error naming that path, with no file read; and no partial
stack is ever returned: whenever `get_imgs` returns a stack at all, its
frame count is the full length of the selected index progression. -/
theorem get_imgs_not_found :
    (∀ (fs : String → Option (List String)) (imread : String → Img)
        (dirPath : String) (imgStart imgStop imgStep nImgs : Option ℤ) (sfx : String),
        fs dirPath = none →
        getImgs fs imread dirPath imgStart imgStop imgStep nImgs sfx =
          (.error (.notFound dirPath), [])) ∧
    (∀ (fs : String → Option (List String)) (imread : String → Img)
        (dirPath : String) (imgStart imgStop imgStep nImgs : Option ℤ) (sfx : String)
        (stack : Stack),
        (getImgs fs imread dirPath imgStart imgStop imgStep nImgs sfx).1 = .ok stack →
        ∃ entries stp nums,
          fs dirPath = some entries ∧
          chooseStep (imgStart.getD 0) (imgStop.getD (globSorted entries sfx).length)
            imgStep nImgs = .ok stp ∧
          arange (imgStart.getD 0) (imgStop.getD (globSorted entries sfx).length) stp =
            some nums ∧
          stack.N = nums.length) := by
  constructor
  · intro fs imread dirPath imgStart imgStop imgStep nImgs sfx h
    unfold getImgs
    rw [h]
  · intro fs imread dirPath imgStart imgStop imgStep nImgs sfx stack h
    unfold getImgs at h
    cases hfs : fs dirPath with
    | none => rw [hfs] at h; simp at h
    | some entries =>
      rw [hfs] at h
      dsimp only at h
      by_cases hsfx : sfx = ""
      · rw [if_pos hsfx] at h; simp at h
      · rw [if_neg hsfx] at h
        cases hcs : chooseStep (imgStart.getD 0)
            (imgStop.getD (globSorted entries sfx).length) imgStep nImgs with
        | error e => rw [hcs] at h; simp at h
        | ok stp =>
          rw [hcs] at h
          dsimp only at h
          cases har : arange (imgStart.getD 0)
              (imgStop.getD (globSorted entries sfx).length) stp with
          | none => rw [har] at h; simp at h
          | some nums =>
            rw [har] at h
            dsimp only at h
            cases hload : (loadImgs imread (globSorted entries sfx) nums).1 with
            | error e => rw [hload] at h; simp at h
            | ok frames =>
              rw [hload] at h
              dsimp only at h
              refine ⟨entries, stp, nums, rfl, hcs, har, ?_⟩
              rw [npStack_fst_N frames stack h,
                loadImgs_fst_ok_length imread (globSorted entries sfx) nums frames hload]

/-- Witness for `get_imgs_not_found`: a filesystem with no directories
makes `get_imgs` fail with `notFound` naming the requested path. -/
theorem get_imgs_not_found_witness :
    getImgs (fun _ => none) (fun _ => ⟨1, 1, fun _ _ => 0⟩) "missing"
        none none none none "tif" = (.error (.notFound "missing"), []) :=
  get_imgs_not_found.1 (fun _ => none) (fun _ => ⟨1, 1, fun _ _ => 0⟩) "missing"
    none none none none "tif" rfl

/-- C4: for an existing directory, when the selected index progression is
valid (nonempty, all indices resolvable) and the decoder yields same-shape
frames, `get_imgs` returns a stack whose frame count is exactly the length
of `np.arange(start, stop, step)` — with `step = 1` when neither an explicit
step nor a target count is given, and `step = round((stop-start)/n_imgs)`
when a target count is given — and whose frame `j` is the decoded image at
selected index `j`. -/
theorem get_imgs_frame_count
    (fs : String → Option (List String)) (imread : String → Img)
    (dirPath sfx : String) (entries : List String)
    (imgStart imgStop imgStep nImgs : Option ℤ)
    (hdir : fs dirPath = some entries) (hsfx : ¬ sfx = "")
    (stp : ℤ) (nums : List ℤ)
    (hstep : chooseStep (imgStart.getD 0) (imgStop.getD (globSorted entries sfx).length)
      imgStep nImgs = .ok stp)
    (harange : arange (imgStart.getD 0) (imgStop.getD (globSorted entries sfx).length)
      stp = some nums)
    (hne : nums ≠ [])
    (hvalid : ∀ n ∈ nums, (pyListGet (globSorted entries sfx) n).isSome)
    (H0 W0 : Nat) (hshape : ∀ p, (imread p).H = H0 ∧ (imread p).W = W0) :
    ∃ stack, (getImgs fs imread dirPath imgStart imgStop imgStep nImgs sfx).1 = .ok stack ∧
      stack.N = nums.length ∧
      nums.length = arangeLen (imgStart.getD 0)
        (imgStop.getD (globSorted entries sfx).length) stp ∧
      (imgStep = none → nImgs = none → stp = 1) ∧
      (∀ k, nImgs = some k →
        stp = pyRoundInt (imgStop.getD (globSorted entries sfx).length - imgStart.getD 0) k) ∧
      (∀ j r c, j < nums.length →
        stack.px j r c =
          (imread ((pyListGet (globSorted entries sfx) (nums.getD j 0)).getD "")).px r c) := by
  have hload := loadImgs_of_valid imread (globSorted entries sfx) nums hvalid
  have hmapne : (nums.map fun n =>
      imread ((pyListGet (globSorted entries sfx) n).getD "")) ≠ [] := by
    simpa using hne
  obtain ⟨st, hst, hstN, hstH, hstW, hstpx⟩ :=
    npStack_ok (nums.map fun n => imread ((pyListGet (globSorted entries sfx) n).getD ""))
      H0 W0 hmapne
      (by
        intro im him
        rw [List.mem_map] at him
        obtain ⟨n, _, rfl⟩ := him
        exact hshape _)
  refine ⟨st, ?_, ?_, ?_, ?_, ?_, ?_⟩
  · unfold getImgs
    rw [hdir]
    dsimp only
    rw [if_neg hsfx, hstep]
    dsimp only
    rw [harange]
    dsimp only
    rw [hload]
    exact hst
  · rw [hstN, List.length_map]
  · unfold arange at harange
    by_cases h0 : stp = 0
    · rw [if_pos h0] at harange; cases harange
    · rw [if_neg h0] at harange
      have := Option.some.inj harange
      rw [← this, List.length_map, List.length_range]
  · intro h1 h2
    rw [h1, h2] at hstep
    simpa [chooseStep] using hstep.symm
  · intro k hk
    rw [hk] at hstep
    simp only [chooseStep] at hstep
    by_cases hk0 : k = 0
    · rw [if_pos hk0] at hstep; cases hstep
    · rw [if_neg hk0] at hstep
      exact (Except.ok.inj hstep).symm
  · intro j r c hj
    have hj' : j < (nums.map fun n =>
        imread ((pyListGet (globSorted entries sfx) n).getD "")).length := by
      simpa using hj
    rw [hstpx, List.getD_eq_getElem _ _ hj', List.getElem_map,
      List.getD_eq_getElem _ _ hj]

/-- The ten-frame directory of the spec's scenario. -/
def filesTen : List String :=
  ["f0.tif", "f1.tif", "f2.tif", "f3.tif", "f4.tif",
   "f5.tif", "f6.tif", "f7.tif", "f8.tif", "f9.tif"]

/-- A filesystem with the single directory `"d"` holding `filesTen`. -/
def fsTen : String → Option (List String) :=
  fun p => if p.data = "d".data then some filesTen else none

/-- A decoder returning a constant `100 × 100` frame for every path. -/
def imreadConst : String → Img := fun _ => ⟨100, 100, fun _ _ => 0⟩

/-- Witness for `get_imgs_frame_count`, the spec's two scenarios: 10 frames
with `start=2, stop=8, step=2` give 3 frames; 10 frames with `n_imgs=5` give
step 2, hence 5 frames. -/
theorem get_imgs_frame_count_witness :
    (∃ stack, (getImgs fsTen imreadConst "d" (some 2) (some 8) (some 2) none "tif").1 =
        .ok stack ∧ stack.N = 3) ∧
    (∃ stack, (getImgs fsTen imreadConst "d" none none none (some 5) "tif").1 =
        .ok stack ∧ stack.N = 5) := by
  constructor
  · obtain ⟨stack, hok, hN, -⟩ :=
      get_imgs_frame_count fsTen imreadConst "d" "tif" filesTen
        (some 2) (some 8) (some 2) none rfl
        (by intro h; exact absurd (congrArg String.data h) (by decide))
        2 [2, 4, 6] rfl (by decide) (by decide) (by decide)
        100 100 (fun _ => ⟨rfl, rfl⟩)
    exact ⟨stack, hok, by simpa using hN⟩
  · obtain ⟨stack, hok, hN, -⟩ :=
      get_imgs_frame_count fsTen imreadConst "d" "tif" filesTen
        none none none (some 5) rfl
        (by intro h; exact absurd (congrArg String.data h) (by decide))
        2 [0, 2, 4, 6, 8] rfl (by decide) (by decide) (by decide)
        100 100 (fun _ => ⟨rfl, rfl⟩)
    exact ⟨stack, hok, by simpa using hN⟩

/-- C9: when both an explicit `img_step` and a target count `n_imgs` are
given, `n_imgs` wins: the call behaves exactly as if `img_step` had not been
passed, and the step actually used is `round((img_stop - img_start)/n_imgs)`
(for a nonzero target count; a zero one divides by zero either way). -/
theorem n_imgs_precedence :
    (∀ (fs : String → Option (List String)) (imread : String → Img)
        (dirPath : String) (imgStart imgStop : Option ℤ) (eStep k : ℤ) (sfx : String),
        getImgs fs imread dirPath imgStart imgStop (some eStep) (some k) sfx =
        getImgs fs imread dirPath imgStart imgStop none (some k) sfx) ∧
    (∀ (start stop eStep k : ℤ), k ≠ 0 →
        chooseStep start stop (some eStep) (some k) = .ok (pyRoundInt (stop - start) k)) := by
  constructor
  · intro fs imread dirPath imgStart imgStop eStep k sfx
    have hch : ∀ start stop : ℤ,
        chooseStep start stop (some eStep) (some k) =
        chooseStep start stop none (some k) := fun _ _ => rfl
    unfold getImgs
    cases fs dirPath with
    | none => rfl
    | some entries => simp only [hch]
  · intro start stop eStep k hk
    simp [chooseStep, hk]

/-- Witness for `n_imgs_precedence`: `n_imgs = 5` over a range of 10 derives
step 2 whatever explicit step was passed, and the two calls coincide. -/
theorem n_imgs_precedence_witness :
    chooseStep 0 10 (some 3) (some 5) = .ok 2 ∧
    getImgs fsTen imreadConst "d" none none (some 3) (some 5) "tif" =
      getImgs fsTen imreadConst "d" none none none (some 5) "tif" := by
  constructor
  · have h := n_imgs_precedence.2 0 10 3 5 (by decide)
    simpa using h
  · exact n_imgs_precedence.1 fsTen imreadConst "d" none none 3 5 "tif"

/-- C10: a target count that rounds the step to zero (for instance a count
more than twice the selected range) makes `get_imgs` fail with the zero-step
progression error, returning no stack and reading no file. -/
theorem zero_step_error
    (fs : String → Option (List String)) (imread : String → Img)
    (dirPath sfx : String) (entries : List String)
    (imgStart imgStop imgStep : Option ℤ) (k : ℤ)
    (hdir : fs dirPath = some entries) (hsfx : ¬ sfx = "") (hk : ¬ k = 0)
    (hround : pyRoundInt (imgStop.getD (globSorted entries sfx).length - imgStart.getD 0)
      k = 0) :
    getImgs fs imread dirPath imgStart imgStop imgStep (some k) sfx =
      (.error .zeroStep, []) := by
  unfold getImgs
  rw [hdir]
  dsimp only
  rw [if_neg hsfx]
  have hcs : chooseStep (imgStart.getD 0) (imgStop.getD (globSorted entries sfx).length)
      imgStep (some k) = .ok 0 := by
    simp [chooseStep, hk, hround]
  rw [hcs]
  dsimp only
  have har : arange (imgStart.getD 0) (imgStop.getD (globSorted entries sfx).length) 0 =
      none := by
    simp [arange]
  rw [har]

/-- Witness for `zero_step_error`: 10 files with `n_imgs = 30` round the
step to zero, and the call fails. -/
theorem zero_step_error_witness :
    getImgs fsTen imreadConst "d" none none none (some 30) "tif" =
      (.error .zeroStep, []) :=
  zero_step_error fsTen imreadConst "d" "tif" filesTen none none none 30 rfl
    (by intro h; exact absurd (congrArg String.data h) (by decide))
    (by decide) (by decide)

/-! ### Lemmas about the exporters -/

theorem strMem_append_self (p : String) (l : List String) :
    strMem p (l ++ [p]) = true := by
  simp [strMem]

/-- C6: running either exporter twice with identical arguments makes the
second call fail with the already-exists error — on the (normalized) file
path for `save_as_gif`, on the destination directory for `save_as_pngs` —
and the failing call leaves the filesystem untouched (it raises before
writing any output). -/
theorem save_twice_already_exists :
    (∀ (fs : FS) (savePath : String) (imgs : Stack) (eqF : Img → Img)
        (eqH : Bool) (fps : ℚ),
      (saveAsGif fs savePath imgs eqF eqH fps).1 = .ok () →
      saveAsGif (saveAsGif fs savePath imgs eqF eqH fps).2 savePath imgs eqF eqH fps =
        (.error (.alreadyExists (gifPath savePath)),
         (saveAsGif fs savePath imgs eqF eqH fps).2)) ∧
    (∀ (fs : FS) (saveDir : String) (imgs : Stack) (sb ts : Bool),
      (saveAsPngs fs saveDir imgs sb ts).1 = .ok () →
      saveAsPngs (saveAsPngs fs saveDir imgs sb ts).2 saveDir imgs sb ts =
        (.error (.alreadyExists saveDir), (saveAsPngs fs saveDir imgs sb ts).2)) := by
  constructor
  · intro fs savePath imgs eqF eqH fps h
    have hfst : saveAsGif fs savePath imgs eqF eqH fps =
        (.ok (), ⟨fs.files ++ [gifPath savePath], fs.dirs⟩) := by
      unfold saveAsGif at h ⊢
      dsimp only at h ⊢
      by_cases hex : fs.pathExists (gifPath savePath) = true
      · rw [if_pos hex] at h; cases h
      · rw [if_neg hex] at h ⊢
        by_cases hall : (((List.range imgs.N).map fun i =>
            if eqH then eqF (imgs.frame i) else imgs.frame i).all ubyteRangeOk) = true
        · rw [if_pos hall]
        · rw [if_neg hall] at h; cases h
    rw [hfst]
    unfold saveAsGif
    dsimp only
    have hex2 : FS.pathExists ⟨fs.files ++ [gifPath savePath], fs.dirs⟩
        (gifPath savePath) = true := by
      simp [FS.pathExists, strMem_append_self]
    rw [if_pos hex2]
  · intro fs saveDir imgs sb ts h
    have hfst : saveAsPngs fs saveDir imgs sb ts =
        (.ok (), ⟨fs.files ++ (List.range imgs.N).map
            (fun i => saveDir ++ "/" ++ pngName (pyStem saveDir) (numDigits imgs.N) i),
          fs.dirs ++ [saveDir]⟩) := by
      unfold saveAsPngs at h ⊢
      by_cases hd : strMem saveDir fs.dirs = true
      · rw [if_pos hd] at h; cases h
      · rw [if_neg hd] at h ⊢
        by_cases hf : strMem saveDir fs.files = true
        · rw [if_pos hf] at h; cases h
        · rw [if_neg hf]
    rw [hfst]
    unfold saveAsPngs
    have hd2 : strMem saveDir (fs.dirs ++ [saveDir]) = true := strMem_append_self _ _
    rw [if_pos hd2]

/-- Witness for `save_twice_already_exists`: a fresh filesystem, a
one-frame zero stack; the gif goes to `"anim"` (normalized to
`"anim.gif"`), the pngs to `"frames"`; the immediate second calls fail. -/
theorem save_twice_already_exists_witness :
    saveAsGif (saveAsGif ⟨[], []⟩ "anim" ⟨1, 1, 1, fun _ _ _ => 0⟩ id false 10).2
        "anim" ⟨1, 1, 1, fun _ _ _ => 0⟩ id false 10 =
      (.error (.alreadyExists "anim.gif"),
       (saveAsGif ⟨[], []⟩ "anim" ⟨1, 1, 1, fun _ _ _ => 0⟩ id false 10).2) ∧
    saveAsPngs (saveAsPngs ⟨[], []⟩ "frames" ⟨1, 1, 1, fun _ _ _ => 0⟩ true true).2
        "frames" ⟨1, 1, 1, fun _ _ _ => 0⟩ true true =
      (.error (.alreadyExists "frames"),
       (saveAsPngs ⟨[], []⟩ "frames" ⟨1, 1, 1, fun _ _ _ => 0⟩ true true).2) := by
  constructor
  · have h := save_twice_already_exists.1 ⟨[], []⟩ "anim" ⟨1, 1, 1, fun _ _ _ => 0⟩
      id false 10 rfl
    simpa using h
  · exact save_twice_already_exists.2 ⟨[], []⟩ "frames" ⟨1, 1, 1, fun _ _ _ => 0⟩
      true true rfl

/-- C7: `save_as_gif` appends `'.gif'` exactly when the given path does not
already end with it, and the overwrite guard checks existence of the path
*after* this normalization: the already-exists error occurs precisely when
the normalized path exists, and any already-exists error names the
normalized path. -/
theorem gif_path_normalization :
    (∀ savePath : String,
      (strEndsWith savePath ".gif" = true → gifPath savePath = savePath) ∧
      (¬ strEndsWith savePath ".gif" = true → gifPath savePath = savePath ++ ".gif") ∧
      (gifPath savePath = savePath ↔ strEndsWith savePath ".gif" = true)) ∧
    (∀ (fs : FS) (savePath : String) (imgs : Stack) (eqF : Img → Img)
        (eqH : Bool) (fps : ℚ),
      ((saveAsGif fs savePath imgs eqF eqH fps).1 =
          .error (.alreadyExists (gifPath savePath)) ↔
        fs.pathExists (gifPath savePath) = true) ∧
      (∀ q, (saveAsGif fs savePath imgs eqF eqH fps).1 = .error (.alreadyExists q) →
        q = gifPath savePath)) := by
  constructor
  · intro savePath
    refine ⟨fun h => by simp [gifPath, h], fun h => by simp [gifPath, h], ?_⟩
    constructor
    · intro h
      by_contra hend
      rw [gifPath, if_neg hend] at h
      have := congrArg (fun t => t.data.length) h
      simp at this
    · intro h
      simp [gifPath, h]
  · intro fs savePath imgs eqF eqH fps
    unfold saveAsGif
    dsimp only
    by_cases hex : fs.pathExists (gifPath savePath) = true
    · rw [if_pos hex]
      exact ⟨⟨fun _ => hex, fun _ => rfl⟩, fun q hq => (Err.alreadyExists.inj
        (Except.error.inj hq)).symm⟩
    · rw [if_neg hex]
      refine ⟨⟨?_, fun h => absurd h hex⟩, ?_⟩ <;>
        by_cases hall : (((List.range imgs.N).map fun i =>
            if eqH then eqF (imgs.frame i) else imgs.frame i).all ubyteRangeOk) = true
      · rw [if_pos hall]; intro h; cases h
      · rw [if_neg hall]; intro h; cases h
      · rw [if_pos hall]; intro q h; cases h
      · rw [if_neg hall]; intro q h; cases h

/-- Witness for `gif_path_normalization`: `"anim"` gets `.gif` appended,
`"clip.gif"` does not, and with `"anim.gif"` already on disk the guard
fires on the normalized path. -/
theorem gif_path_normalization_witness :
    gifPath "anim" = "anim.gif" ∧ gifPath "clip.gif" = "clip.gif" ∧
    (saveAsGif ⟨["anim.gif"], []⟩ "anim" ⟨1, 1, 1, fun _ _ _ => 0⟩ id false 10).1 =
      .error (.alreadyExists "anim.gif") := by
  refine ⟨(gif_path_normalization.1 "anim").2.1 (by decide),
    (gif_path_normalization.1 "clip.gif").1 (by decide), ?_⟩
  have h := ((gif_path_normalization.2 ⟨["anim.gif"], []⟩ "anim"
    ⟨1, 1, 1, fun _ _ _ => 0⟩ id false 10).1).mpr (by decide)
  simpa using h

theorem toDigitsCore_length (b : Nat) (hb : 2 ≤ b) :
    ∀ (fuel n : Nat) (ds : List Char), n < b ^ fuel → 0 < fuel →
      (Nat.toDigitsCore b fuel n ds).length = ds.length + Nat.log b n + 1 := by
  intro fuel
  induction fuel with
  | zero => intro n ds _ hf; cases hf
  | succ fuel ih =>
    intro n ds hlt _
    rw [Nat.toDigitsCore]
    by_cases hz : n / b = 0
    · rw [if_pos hz]
      have hnb : n < b := by
        rcases Nat.lt_or_ge n b with h | h
        · exact h
        · exact absurd hz (by
            have : 1 ≤ n / b := (Nat.le_div_iff_mul_le (by omega)).mpr (by omega)
            omega)
      rw [Nat.log_of_lt hnb]
      simp
    · rw [if_neg hz]
      have hbn : b ≤ n := by
        by_contra hlt'
        exact hz (Nat.div_eq_of_lt (by omega))
      have hfuel : 0 < fuel := by
        rcases Nat.eq_zero_or_pos fuel with h | h
        · subst h
          rw [pow_one] at hlt
          exact absurd (Nat.div_eq_of_lt hlt) hz
        · exact h
      have hlt' : n / b < b ^ fuel := by
        rw [Nat.div_lt_iff_lt_mul (by omega)]
        calc n < b ^ (fuel + 1) := hlt
        _ = b ^ fuel * b := by ring
      rw [ih (n / b) _ hlt' hfuel, Nat.log_of_one_lt_of_le (by omega) hbn]
      simp
      omega

theorem numDigits_eq_log (n : Nat) : numDigits n = Nat.log 10 n + 1 := by
  unfold numDigits Nat.toDigits
  rw [toDigitsCore_length 10 (by norm_num) (n + 1) n []
    (lt_of_lt_of_le (Nat.lt_pow_self (by norm_num) n)
      (Nat.pow_le_pow_right (by norm_num) (Nat.le_succ n)))
    (Nat.succ_pos n)]
  simp

theorem numDigits_mono {i n : Nat} (h : i ≤ n) : numDigits i ≤ numDigits n := by
  rw [numDigits_eq_log, numDigits_eq_log]
  exact Nat.succ_le_succ (Nat.log_mono_right h)

theorem zfillChars_length_of_le (s : List Char) (w : Nat) (h : s.length ≤ w) :
    (zfillChars s w).length = w := by
  unfold zfillChars
  by_cases hw : w ≤ s.length
  · rw [if_pos hw]; omega
  · rw [if_neg hw]; simp; omega

/-- C8: a successful `save_as_pngs` writes exactly one file per frame, frame
`i` going to `'<dir>/<stem>_<padded i>.png'` where the stem is the
destination directory's base name and the index is `str(i)` zero-filled to
`len(str(N))`, the decimal digit width of the frame count; for every
`i < N` that zero-filled field is exactly `len(str(N))` characters wide. -/
theorem png_file_names (fs : FS) (saveDir : String) (imgs : Stack) (sb ts : Bool)
    (hok : (saveAsPngs fs saveDir imgs sb ts).1 = .ok ()) :
    (saveAsPngs fs saveDir imgs sb ts).2.files =
      fs.files ++ (List.range imgs.N).map
        (fun i => saveDir ++ "/" ++ pngName (pyStem saveDir) (numDigits imgs.N) i) ∧
    (∀ i, pngName (pyStem saveDir) (numDigits imgs.N) i =
      pyStem saveDir ++ "_" ++
        String.mk (zfillChars (Nat.toDigits 10 i) (numDigits imgs.N)) ++ ".png") ∧
    (∀ i, i < imgs.N →
      (zfillChars (Nat.toDigits 10 i) (numDigits imgs.N)).length = numDigits imgs.N) := by
  refine ⟨?_, fun i => rfl, ?_⟩
  · unfold saveAsPngs at hok ⊢
    by_cases hd : strMem saveDir fs.dirs = true
    · rw [if_pos hd] at hok; cases hok
    · rw [if_neg hd] at hok ⊢
      by_cases hf : strMem saveDir fs.files = true
      · rw [if_pos hf] at hok; cases hok
      · rw [if_neg hf]
  · intro i hi
    refine zfillChars_length_of_le _ _ ?_
    have : numDigits i ≤ numDigits imgs.N := numDigits_mono (Nat.le_of_lt hi)
    simpa [numDigits] using this

/-- Witness for `png_file_names`: eleven zero frames to directory
`"runs/frames"`; the files are `frames_00.png` … `frames_10.png`, each index
zero-filled to the two digits of `N = 11`. -/
theorem png_file_names_witness :
    (saveAsPngs ⟨[], []⟩ "runs/frames" ⟨11, 1, 1, fun _ _ _ => 0⟩ true false).2.files =
      (List.range 11).map
        (fun i => "runs/frames" ++ "/" ++ pngName (pyStem "runs/frames") (numDigits 11) i) ∧
    pngName (pyStem "runs/frames") (numDigits 11) 3 = "frames_03.png" ∧
    (zfillChars (Nat.toDigits 10 3) (numDigits 11)).length = numDigits 11 := by
  obtain ⟨h1, h2, h3⟩ := png_file_names ⟨[], []⟩ "runs/frames"
    ⟨11, 1, 1, fun _ _ _ => 0⟩ true false rfl
  refine ⟨by simpa using h1, ?_, h3 3 (by decide)⟩
  rw [h2 3]
  decide

/-! ### Percentile bounds after clipping -/

theorem interpPctl_floor (v : List ℚ) (q : ℚ) :
    interpPctl v q =
      valAt v (⌊q / 100 * ((v.length : ℚ) - 1)⌋).toNat +
        (q / 100 * ((v.length : ℚ) - 1) - (⌊q / 100 * ((v.length : ℚ) - 1)⌋ : ℚ)) *
          (valAt v ((⌊q / 100 * ((v.length : ℚ) - 1)⌋).toNat + 1) -
            valAt v (⌊q / 100 * ((v.length : ℚ) - 1)⌋).toNat) := by
  rw [interpPctl, ← Rat.floor_def]

theorem valAt_mono {v : List ℚ} (hs : List.Sorted (· ≤ ·) v) {i j : Nat} (h : i ≤ j) :
    valAt v i ≤ valAt v j := by
  by_cases hv : v = []
  · subst hv; simp [valAt]
  · have hlen : 0 < v.length := List.length_pos.mpr hv
    have hi : min i (v.length - 1) < v.length := by omega
    have hj : min j (v.length - 1) < v.length := by omega
    rw [valAt, valAt, List.getD_eq_getElem _ _ hi, List.getD_eq_getElem _ _ hj]
    have hle := List.Sorted.rel_get_of_le hs (a := ⟨_, hi⟩) (b := ⟨_, hj⟩)
      (by simp only [Fin.mk_le_mk]; omega)
    simpa [List.get_eq_getElem] using hle

theorem interpAt_mono {v : List ℚ} (hs : List.Sorted (· ≤ ·) v) {p p' : ℚ}
    (h0 : 0 ≤ p) (h : p ≤ p') :
    valAt v (⌊p⌋).toNat + (p - (⌊p⌋ : ℚ)) *
        (valAt v ((⌊p⌋).toNat + 1) - valAt v (⌊p⌋).toNat) ≤
      valAt v (⌊p'⌋).toNat + (p' - (⌊p'⌋ : ℚ)) *
        (valAt v ((⌊p'⌋).toNat + 1) - valAt v (⌊p'⌋).toNat) := by
  have hfl : ⌊p⌋ ≤ ⌊p'⌋ := Int.floor_le_floor h
  have hp0 : (0 : ℤ) ≤ ⌊p⌋ := Int.floor_nonneg.mpr h0
  have hAB : valAt v (⌊p⌋).toNat ≤ valAt v ((⌊p⌋).toNat + 1) :=
    valAt_mono hs (Nat.le_succ _)
  have hAB' : valAt v (⌊p'⌋).toNat ≤ valAt v ((⌊p'⌋).toNat + 1) :=
    valAt_mono hs (Nat.le_succ _)
  have hf0 : 0 ≤ p - (⌊p⌋ : ℚ) := by linarith [Int.floor_le p]
  have hf1 : p - (⌊p⌋ : ℚ) < 1 := by linarith [Int.lt_floor_add_one p]
  have hf0' : 0 ≤ p' - (⌊p'⌋ : ℚ) := by linarith [Int.floor_le p']
  by_cases heq : ⌊p⌋ = ⌊p'⌋
  · rw [← heq]
    have hmul : (p - (⌊p⌋ : ℚ)) * (valAt v ((⌊p⌋).toNat + 1) - valAt v (⌊p⌋).toNat) ≤
        (p' - (⌊p⌋ : ℚ)) * (valAt v ((⌊p⌋).toNat + 1) - valAt v (⌊p⌋).toNat) :=
      mul_le_mul_of_nonneg_right (by linarith) (by linarith)
    linarith
  · have hlt : ⌊p⌋ < ⌊p'⌋ := lt_of_le_of_ne hfl heq
    have hij : (⌊p⌋).toNat + 1 ≤ (⌊p'⌋).toNat := by omega
    have h1 : valAt v (⌊p⌋).toNat + (p - (⌊p⌋ : ℚ)) *
        (valAt v ((⌊p⌋).toNat + 1) - valAt v (⌊p⌋).toNat) ≤
        valAt v ((⌊p⌋).toNat + 1) := by nlinarith
    have h2 : valAt v ((⌊p⌋).toNat + 1) ≤ valAt v (⌊p'⌋).toNat := valAt_mono hs hij
    have h3 : valAt v (⌊p'⌋).toNat ≤ valAt v (⌊p'⌋).toNat + (p' - (⌊p'⌋ : ℚ)) *
        (valAt v ((⌊p'⌋).toNat + 1) - valAt v (⌊p'⌋).toNat) := by nlinarith
    linarith

theorem interpPctl_mono {v : List ℚ} (hs : List.Sorted (· ≤ ·) v)
    {q q' : ℚ} (h0 : 0 ≤ q) (h : q ≤ q') :
    interpPctl v q ≤ interpPctl v q' := by
  by_cases hv : v = []
  · subst hv
    simp [interpPctl, valAt]
  · have hlen : 0 < v.length := List.length_pos.mpr hv
    have hlen' : (0 : ℚ) ≤ (v.length : ℚ) - 1 := by
      have : (1 : ℚ) ≤ (v.length : ℚ) := by exact_mod_cast hlen
      linarith
    rw [interpPctl_floor, interpPctl_floor]
    apply interpAt_mono hs
    · exact mul_nonneg (by positivity) hlen'
    · exact mul_le_mul_of_nonneg_right (by linarith) hlen'

theorem percentileQ_mono (s : Stack) {q q' : ℚ} (h0 : 0 ≤ q) (h : q ≤ q') :
    percentileQ s q ≤ percentileQ s q' :=
  interpPctl_mono (List.sorted_insertionSort (· ≤ ·) s.vals) h0 h

/-- C3 (amended): when `align_and_sub_liq` is called with a clip range
`[p_lo, p_hi]` (with `0 ≤ p_lo ≤ p_hi`) and a **zero** (falsy)
histogram-equalization clip limit, every value of the returned stack lies
within the percentile bounds `[low, high]` computed over the corrected
stack before clipping.  (With a nonzero clip limit the output is rescaled
into `[0, 1]` and equalized, which can leave those bounds — see the
counterexample.) -/
theorem align_clip_bounds
    (median imgAsFloat : Stack → Stack) (pcc : Img → Img → ℤ × ℤ)
    (equalize : ℚ → Stack → Stack) (imgs : Stack) (pLo pHi : ℚ)
    (crctd : Stack) (hc : correctedStack median imgAsFloat pcc imgs = some crctd)
    (h0 : 0 ≤ pLo) (hlh : pLo ≤ pHi) :
    ∃ out, alignAndSubLiq median imgAsFloat pcc equalize imgs (some (pLo, pHi)) 0 =
        some out ∧
      ∀ i r c, percentileQ crctd pLo ≤ out.px i r c ∧
        out.px i r c ≤ percentileQ crctd pHi := by
  have hb : percentileQ crctd pLo ≤ percentileQ crctd pHi := percentileQ_mono crctd h0 hlh
  refine ⟨npClip crctd (percentileQ crctd pLo) (percentileQ crctd pHi), ?_, ?_⟩
  · rw [alignAndSubLiq, hc]
    simp
  · intro i r c
    constructor
    · exact le_min (le_max_right _ _) hb
    · exact min_le_right _ _

/-- The two-frame, one-pixel stack used to exercise the clipping path:
frame 0 (the background) is `0`, frame 1 is `4`. -/
def stackC3 : Stack := ⟨2, 1, 1, fun i _ _ => if i = 0 then 0 else 4⟩

/-- Witness for `align_clip_bounds` on `stackC3` with the default clip
range `[0.1, 99.9]` and a zero equalization limit. -/
theorem align_clip_bounds_witness :
    ∃ crctd out,
      correctedStack id id pccZero stackC3 = some crctd ∧
      alignAndSubLiq id id pccZero eqIdentity stackC3 (some (1/10, 999/10)) 0 =
        some out ∧
      percentileQ crctd (1/10) ≤ out.px 1 0 0 ∧
      out.px 1 0 0 ≤ percentileQ crctd (999/10) := by
  obtain ⟨crctd, hc⟩ : ∃ c, correctedStack id id pccZero stackC3 = some c := ⟨_, rfl⟩
  obtain ⟨out, hout, hbnd⟩ := align_clip_bounds id id pccZero eqIdentity stackC3
    (1/10) (999/10) crctd hc (by norm_num) (by norm_num)
  exact ⟨crctd, out, hc, hout, (hbnd 1 0 0).1, (hbnd 1 0 0).2⟩

theorem interpPctl_pair (a b q : ℚ) (h0 : 0 ≤ q) (h1 : q < 100) :
    interpPctl [a, b] q = a + q / 100 * (b - a) := by
  have h2 : ((([a, b] : List ℚ).length : ℚ)) - 1 = 1 := by norm_num
  have hfl : ⌊q / 100 * (((([a, b] : List ℚ).length : ℚ)) - 1)⌋ = 0 := by
    rw [h2, mul_one, Int.floor_eq_zero_iff]
    exact ⟨by positivity, by linarith⟩
  rw [interpPctl_floor, hfl]
  simp [valAt, h2]
  left
  ring

/-- C3 counterexample: on `stackC3` with the **default** settings — clip
range `[0.1, 99.9]` and the nonzero default equalization clip limit — the
returned value at `(0,0,0)` is `0`, strictly below the lower percentile
bound `low = 0.004` of the corrected stack: once the clipped stack is
rescaled into `[0, 1]` (and equalized by a range-preserving equalizer,
here the identity), the output escapes `[low, high]`, so the claim's
"for every histogram-equalization clip limit" fails. -/
theorem align_clip_bounds_cex :
    (alignAndSubLiq id id pccZero eqIdentity stackC3 (some clipDefault)
        histEqClipLimDefault).isSome = true ∧
    ((alignAndSubLiq id id pccZero eqIdentity stackC3 (some clipDefault)
        histEqClipLimDefault).getD stackC3).px 0 0 0 <
      percentileQ ((correctedStack id id pccZero stackC3).getD stackC3)
        clipDefault.1 := by
  have hd0 : ((correctedStack id id pccZero stackC3).getD stackC3).px 0 0 0 = 0 := by
    norm_num [correctedStack, collectFrames, alignFrame, liqCrop, frameCrop,
      Img.pySlice, pyIdx, Img.subImg, Stack.frame, stackC3, pccZero]
  have hd1 : ((correctedStack id id pccZero stackC3).getD stackC3).px 1 0 0 = 4 := by
    norm_num [correctedStack, collectFrames, alignFrame, liqCrop, frameCrop,
      Img.pySlice, pyIdx, Img.subImg, Stack.frame, stackC3, pccZero]
  have hshape : ((correctedStack id id pccZero stackC3).getD stackC3).N = 2 ∧
      ((correctedStack id id pccZero stackC3).getD stackC3).H = 1 ∧
      ((correctedStack id id pccZero stackC3).getD stackC3).W = 1 := by
    refine ⟨?_, ?_, ?_⟩ <;>
      norm_num [correctedStack, collectFrames, alignFrame, liqCrop, frameCrop,
        Img.pySlice, pyIdx, Img.subImg, Stack.frame, stackC3, pccZero]
  have hvals : ((correctedStack id id pccZero stackC3).getD stackC3).vals = [0, 4] := by
    rw [Stack.vals, hshape.1, hshape.2.1, hshape.2.2]
    simp [List.range_succ, hd0, hd1]
  have hsorted : List.insertionSort (· ≤ ·) [(0 : ℚ), 4] = [0, 4] := by
    norm_num [List.insertionSort, List.orderedInsert]
  have hlow : percentileQ ((correctedStack id id pccZero stackC3).getD stackC3)
      (1/10) = 1/250 := by
    rw [percentileQ, hvals, hsorted,
      interpPctl_pair 0 4 (1/10) (by norm_num) (by norm_num)]
    norm_num
  have hhigh : percentileQ ((correctedStack id id pccZero stackC3).getD stackC3)
      (999/10) = 999/250 := by
    rw [percentileQ, hvals, hsorted,
      interpPctl_pair 0 4 (999/10) (by norm_num) (by norm_num)]
    norm_num
  have hc : correctedStack id id pccZero stackC3 =
      some ((correctedStack id id pccZero stackC3).getD stackC3) := rfl
  have hout : alignAndSubLiq id id pccZero eqIdentity stackC3 (some clipDefault)
      histEqClipLimDefault =
      some (rescale01 (npClip ((correctedStack id id pccZero stackC3).getD stackC3)
        (percentileQ ((correctedStack id id pccZero stackC3).getD stackC3) (1/10))
        (percentileQ ((correctedStack id id pccZero stackC3).getD stackC3) (999/10)))) := by
    conv_lhs => rw [alignAndSubLiq, hc]
    simp only [Option.map_some', clipDefault]
    rw [if_pos (by norm_num [histEqClipLimDefault])]
    rfl
  have hclipvals : (npClip ((correctedStack id id pccZero stackC3).getD stackC3)
      (1/250) (999/250)).vals = [1/250, 999/250] := by
    rw [Stack.vals]
    show ((List.range ((correctedStack id id pccZero stackC3).getD stackC3).N).flatMap
      fun i => (List.range ((correctedStack id id pccZero stackC3).getD stackC3).H).flatMap
        fun r => (List.range ((correctedStack id id pccZero stackC3).getD stackC3).W).map
          fun c => min (max (((correctedStack id id pccZero stackC3).getD stackC3).px i r c)
            (1/250)) (999/250)) = [1/250, 999/250]
    rw [hshape.1, hshape.2.1, hshape.2.2]
    simp only [List.range_succ, List.range_zero]
    simp [hd0, hd1]
    norm_num [min_def, max_def]
  constructor
  · rw [hout]; rfl
  · rw [hout]
    simp only [Option.getD_some]
    have h14 : clipDefault.1 = (1/10 : ℚ) := rfl
    rw [h14, hlow, hhigh]
    simp only [rescale01, hclipvals]
    norm_num [List.foldr, List.headI, npClip, hd0, min_def, max_def]
